import Mathlib

/-!
Verification development for the VoIP-BakingServices repository.

The repository's core (per its design description) is the real-time audio
capture pipeline implemented by the three near-identical `MicrophoneStream`
classes in `src/stream_google_stt.py` and `src/stream_azure_stt.py`, plus the
transcript-event presentation and TTS-reaction handling in
`src/stream_azure_stt.py`.

This file gives a shallow embedding of that code and proves/refutes the
frozen claims about it.  All definitions are translated from the Python
source; definitions that follow the wording of the specification instead
(for refinement comparisons) are explicitly named and documented as such.
-/

namespace VoipStt

/-- A captured audio frame: the raw bytes of one capture period
(`in_data` handed to `_fill_buffer`), modelled as a list of byte values. -/
abbrev Frame := List Nat

/-- One entry of `MicrophoneStream._buff` (a `queue.Queue`): either a frame
(`some f`) or the terminal sentinel `None` pushed by `__exit__`. -/
abbrev Item := Option Frame

/-! ## The generator's inner non-blocking drain loop

Python source (identical in `stream_google_stt.py` lines 66-73 and
`stream_azure_stt.py` lines 281-288):

```
while True:
    try:
        chunk = self._buff.get(block=False)
        if chunk is None:
            return
        data.append(chunk)
    except queue.Empty:
        break
```
-/

/-- `drain q data` runs the inner non-blocking loop on the queue contents `q`
with already-pulled frames `data`.  Returns `(data', rest, sawSentinel)`:
the accumulated frames, the queue contents left behind, and whether the
sentinel was pulled (`chunk is None` → the generator `return`s, so the
caller discards `data'` without yielding). -/
def drain : List Item → List Frame → List Frame × List Item × Bool
  | [], data => (data, [], false)
  | none :: rest, data => (data, rest, true)
  | some c :: rest, data => drain rest (data ++ [c])

/-- Position of the consumer (the code running `generator()`):
`idle` = about to test `while not self._closed` (also the state in which the
generator is suspended at `yield`, since resuming re-enters that test);
`blocked` = inside the blocking `self._buff.get()` call;
`done` = the generator has returned. -/
inductive CPos where
  | idle
  | blocked
  | done
deriving DecidableEq, Repr

/-- Joint state of one `MicrophoneStream` and the single consumer of its
`generator()`:
`closed` is `self._closed`, `buff` is `self._buff` (FIFO front first),
`yields` collects the byte strings produced by `yield b"".join(data)`,
`sentObs` counts how many times the consumer pulled the sentinel, and
`pos` is the consumer's position. -/
structure SysState where
  closed : Bool
  buff : List Item
  yields : List Frame
  sentObs : Nat
  pos : CPos
deriving DecidableEq, Repr

/-- The state right after `__init__`/`__enter__`: stream open, empty queue,
consumer about to enter the generator loop. -/
def initState : SysState :=
  { closed := false, buff := [], yields := [], sentObs := 0, pos := CPos.idle }

/-- One full generator iteration from the point where the blocking
`self._buff.get()` returns (or blocks): pull the first item; on `None`
return (one sentinel observation); otherwise run the non-blocking drain and
either return (sentinel pulled mid-drain: the accumulated `data` is
discarded) or `yield b"".join(data)` and suspend at the yield
(position `idle`: resuming re-checks `while not self._closed`). -/
def consumeFrom (s : SysState) : SysState :=
  match s.buff with
  | [] => { s with pos := CPos.blocked }
  | none :: rest =>
      { s with buff := rest, sentObs := s.sentObs + 1, pos := CPos.done }
  | some c :: rest =>
      let r := drain rest [c]
      if r.2.2 then
        { s with buff := r.2.1, sentObs := s.sentObs + 1, pos := CPos.done }
      else
        { s with buff := [], yields := s.yields ++ [r.1.flatten], pos := CPos.idle }

/-- The events that interleave on a `MicrophoneStream`:
`push f` is the PortAudio callback `_fill_buffer` enqueueing one period;
`close` is the `finally:` block of `__exit__` (`self._closed = True;
self._buff.put(None)`); `consume` schedules the consumer: if it is `idle`
it tests `while not self._closed` and then issues the blocking `get`;
if it is `blocked` it wakes only when the queue is non-empty and continues
the iteration without re-testing the flag. -/
inductive MicEvent where
  | push (f : Frame)
  | close
  | consume
deriving DecidableEq, Repr

/-- One interleaving step. -/
def step (s : SysState) : MicEvent → SysState
  | MicEvent.push f => { s with buff := s.buff ++ [some f] }
  | MicEvent.close => { s with closed := true, buff := s.buff ++ [none] }
  | MicEvent.consume =>
      match s.pos with
      | CPos.done => s
      | CPos.idle => if s.closed then { s with pos := CPos.done } else consumeFrom s
      | CPos.blocked => if s.buff = [] then s else consumeFrom s

/-- Run a schedule of events from a given state. -/
def runFrom (s : SysState) (evs : List MicEvent) : SysState :=
  evs.foldl step s

/-- Run a schedule of events from the freshly opened stream. -/
def runSys (evs : List MicEvent) : SysState :=
  runFrom initState evs

/-- The frames handed to the capture callback by a schedule, in push order. -/
def pushedFrames (evs : List MicEvent) : List Frame :=
  evs.filterMap fun e =>
    match e with
    | MicEvent.push f => some f
    | _ => none

/-- A consumer pause/resume pattern: while the consumer is paused the group's
frames accumulate in the queue, then the consumer resumes and performs one
batch request. -/
def pauseResume (groups : List (List Frame)) : List MicEvent :=
  groups.flatMap fun g => g.map MicEvent.push ++ [MicEvent.consume]

/-- The generator iteration as claim C2 words it: the frames pulled before a
mid-drain sentinel are still concatenated and yielded as a unit.  This
definition follows the claim's sentence, not the source; it exists only to
be compared against `consumeFrom`, which is the source's behaviour. -/
def consumeFromClaimed (s : SysState) : SysState :=
  match s.buff with
  | [] => { s with pos := CPos.blocked }
  | none :: rest =>
      { s with buff := rest, sentObs := s.sentObs + 1, pos := CPos.done }
  | some c :: rest =>
      let r := drain rest [c]
      if r.2.2 then
        { s with buff := r.2.1, yields := s.yields ++ [r.1.flatten],
                 sentObs := s.sentObs + 1, pos := CPos.done }
      else
        { s with buff := [], yields := s.yields ++ [r.1.flatten], pos := CPos.idle }

/-- The consumer-side invariant: at most one sentinel is ever observed, and
observing it ends the generator. -/
def SentinelInv (s : SysState) : Prop :=
  s.sentObs ≤ 1 ∧ (s.sentObs = 1 → s.pos = CPos.done)

/-- Once the stream is closed (the flag is set and a sentinel is queued or
the generator already returned), no step ever yields another unit. -/
def ClosedInv (s : SysState) : Prop :=
  s.closed = true → (s.pos = CPos.done ∨ (none : Item) ∈ s.buff)

/-! ## The transcript presenter (`src/stream_azure_stt.py`)

The Azure script presents recognition events on stdout: interim results are
written over the current line (`"\r" + display`), final results are printed
permanently after `_clear_interim_line()` pad-erases the previous interim,
and (with AI/TTS enabled) a final result triggers an OpenAI reply plus an
Azure TTS synthesis-and-playback reaction. -/

/-- A monospaced rendering of one stdout line: `line` is the cells of the
current (uncommitted) line, `cursor` the column the next character lands in,
`committed` the lines already ended by a newline.  `'\r'` returns the cursor
to column 0; other characters overwrite the cell under the cursor. -/
structure Term where
  line : List Char
  cursor : Nat
  committed : List (List Char)
deriving DecidableEq, Repr

/-- Write one character to the terminal. -/
def putChar (t : Term) (c : Char) : Term :=
  if c = '\r' then { t with cursor := 0 }
  else if c = '\n' then
    { line := [], cursor := 0, committed := t.committed ++ [t.line] }
  else
    { t with
      line := if t.cursor < t.line.length then t.line.set t.cursor c else t.line ++ [c],
      cursor := t.cursor + 1 }

/-- Write a character sequence to the terminal (`sys.stdout.write`). -/
def writeStr (t : Term) (s : List Char) : Term :=
  s.foldl putChar t

/-- The interesting globals of `stream_azure_stt.py`, plus the two remote
collaborators, bundled.  `nfc` models `unicodedata.normalize("NFC", ·)`,
whose character tables live outside this repository: every theorem below
holds for an arbitrary `nfc`, hence for the real one.  `replyFn` models the
text returned by the OpenAI chat completion inside `get_sinhala_response`
(a remote service), and `synthOk` whether `speak_ssml_async(...).get()`
reports `SynthesizingAudioCompleted`. -/
structure Config where
  nfc : List Char → List Char
  enable_ai_responses : Bool
  hasOpenai : Bool
  replyFn : List Char → List Char
  enable_tts : Bool
  hasSynthesizer : Bool
  synthOk : Bool

/-- Python `str.split()` whitespace, restricted to the ASCII whitespace
characters (the only ones these claims exercise). -/
def isSpace (c : Char) : Bool :=
  c = ' ' || c = '\t' || c = '\n' || c = '\r' || c = '\x0b' || c = '\x0c'

/-- Helper for `words`: scan the text once, accumulating the current
whitespace-free run (in reverse) and emitting it at each boundary. -/
def wordsAux : List Char → List Char → List (List Char)
  | [], cur => if cur = [] then [] else [cur.reverse]
  | c :: cs, cur =>
      if isSpace c then (if cur = [] then [] else [cur.reverse]) ++ wordsAux cs []
      else wordsAux cs (c :: cur)

/-- Python `text.split()`: the maximal whitespace-free runs of `text`,
dropping empty pieces. -/
def words (l : List Char) : List (List Char) :=
  wordsAux l []

/-- Python `" ".join(pieces)`. -/
def joinSp : List (List Char) → List Char
  | [] => []
  | [w] => w
  | w :: ws => w ++ ' ' :: joinSp ws

/-- The zero-width non-joiner U+200C removed by `normalize_sinhala_text`. -/
def zwnj : Char := Char.ofNat 0x200C

/-- The zero-width joiner U+200D removed by `normalize_sinhala_text`. -/
def zwj : Char := Char.ofNat 0x200D

/-- The byte-order mark U+FEFF removed by `normalize_sinhala_text`. -/
def bom : Char := Char.ofNat 0xFEFF

/-- The three `replace(x, "")` calls of `normalize_sinhala_text`. -/
def removeProblemChars (l : List Char) : List Char :=
  l.filter fun c => !(c = zwnj || c = zwj || c = bom)

/-- `normalize_sinhala_text` (lines 91-108): empty text is returned as is;
otherwise NFC-normalize, strip ZWNJ/ZWJ/BOM, and collapse whitespace via
`" ".join(text.split())`. -/
def normalize_sinhala_text (nfc : List Char → List Char) (text : List Char) :
    List Char :=
  if text = [] then text
  else joinSp (words (removeProblemChars (nfc text)))

/-- Python `str.strip()` (ASCII whitespace, as above). -/
def pyStrip (l : List Char) : List Char :=
  ((l.dropWhile isSpace).reverse.dropWhile isSpace).reverse

/-- `get_display_width` (lines 150-158): characters in the Sinhala Unicode
block U+0D80–U+0DFF count two columns, all others one. -/
def get_display_width (text : List Char) : Nat :=
  text.foldl (fun w c => if 0x0D80 ≤ c.toNat ∧ c.toNat ≤ 0x0DFF then w + 2 else w + 1) 0

/-- State of the presenter: the terminal, `_last_interim_display`, plus three
observation logs — the pad widths used by `_clear_interim_line`, the exact
arguments of `print(...)` calls, and the texts handed to a TTS
synthesis-and-playback reaction. -/
structure PresenterState where
  term : Term
  lastInterim : List Char
  clears : List Nat
  emitted : List (List Char)
  reactions : List (List Char)
deriving DecidableEq, Repr

/-- A fresh presenter: empty screen, no pending interim line. -/
def initPresenter : PresenterState :=
  { term := { line := [], cursor := 0, committed := [] },
    lastInterim := [], clears := [], emitted := [], reactions := [] }

/-- Python `print(msg)`: the message plus a newline on stdout; the argument
is logged in `emitted`. -/
def printLine (s : PresenterState) (msg : List Char) : PresenterState :=
  { s with term := writeStr s.term (msg ++ ['\n']), emitted := s.emitted ++ [msg] }

/-- `_clear_interim_line` (lines 161-168): nothing to do when no interim is
pending; otherwise write `"\r" + " " * get_display_width(last) + "\r"` and
reset `_last_interim_display`. -/
def clear_interim_line (s : PresenterState) : PresenterState :=
  if s.lastInterim = [] then s
  else
    { s with
      term := writeStr s.term
        ('\r' :: (List.replicate (get_display_width s.lastInterim) ' ' ++ ['\r'])),
      lastInterim := [],
      clears := s.clears ++ [get_display_width s.lastInterim] }

/-- The detected-language display prefix `f"[{lang}] "`, produced only when
`show_lang` holds and the (possibly absent) language attribute is a
non-empty string. -/
def langTag (show_lang : Bool) (lang : Option (List Char)) : List Char :=
  match show_lang, lang with
  | true, some l => if l = [] then [] else '[' :: (l ++ [']', ' '])
  | _, _ => []

/-- `on_recognizing` (lines 171-185): normalize the interim text; if empty,
return; otherwise write `"\r" + "📝 " + prefix + text` over the current line
and remember it — note: no pad-erase of the previous interim happens here. -/
def on_recognizing (cfg : Config) (show_lang : Bool) (s : PresenterState)
    (text : List Char) (lang : Option (List Char)) : PresenterState :=
  let t := normalize_sinhala_text cfg.nfc text
  if t = [] then s
  else
    let display := "📝 ".toList ++ langTag show_lang lang ++ t
    { s with term := writeStr s.term ('\r' :: display), lastInterim := display }

/-- `get_sinhala_response` (lines 110-148), modelled from the source with the
remote OpenAI call abstracted by `cfg.replyFn`: returns the empty reply when
the client is absent or AI responses are disabled, else prints a thinking
indicator, clears it, and returns the stripped remote reply. -/
def get_sinhala_response (cfg : Config) (s : PresenterState) (prompt : List Char) :
    PresenterState × List Char :=
  if !cfg.hasOpenai || !cfg.enable_ai_responses then (s, [])
  else
    let s1 := { s with term := writeStr s.term "🤔 AI සිතමින්...".toList }
    let s2 := { s1 with
      term := writeStr s1.term ('\r' :: (List.replicate 20 ' ' ++ ['\r'])) }
    (s2, pyStrip (cfg.replyFn prompt))

/-- `speak_sinhala_text` (lines 477-511): skip when TTS is disabled (unless
forced), no synthesizer exists, or the text strips to empty; otherwise print
a speaking indicator, normalize the text, synthesize-and-play it (logged in
`reactions`), clear the indicator, and report success or failure. -/
def speak_sinhala_text (cfg : Config) (s : PresenterState) (text : List Char)
    (force : Bool) : PresenterState :=
  if (!cfg.enable_tts && !force) || !cfg.hasSynthesizer || pyStrip text = [] then s
  else
    let s1 := { s with term := writeStr s.term "🔊 කථනය කරමින්...".toList }
    let clean := normalize_sinhala_text cfg.nfc text
    let s2 := { s1 with reactions := s1.reactions ++ [clean] }
    let s3 := { s2 with
      term := writeStr s2.term ('\r' :: (List.replicate 20 ' ' ++ ['\r'])) }
    if cfg.synthOk then printLine s3 "🎵 කථනය සම්පූර්ණයි".toList
    else printLine s3 "❌ TTS දෝෂයක්".toList

/-- A recognition event as dispatched to the handlers: `interim` goes to
`on_recognizing`; `finalR` (reason `RecognizedSpeech`) and `noMatch`
(reason `NoMatch`) go to `on_recognized`. -/
inductive RecoEvent where
  | interim (text : List Char) (lang : Option (List Char))
  | finalR (text : List Char) (lang : Option (List Char))
  | noMatch
deriving DecidableEq, Repr

/-- `on_recognized` (lines 188-212): `NoMatch` clears the interim line and
prints a notice; `RecognizedSpeech` normalizes the text (empty → return),
clears the interim line, prints the committed line, and — when AI responses
are enabled and the reply is non-empty — prints the reply and speaks it. -/
def on_recognized (cfg : Config) (show_lang : Bool) (s : PresenterState)
    (ev : RecoEvent) : PresenterState :=
  match ev with
  | RecoEvent.interim _ _ => s
  | RecoEvent.noMatch =>
      printLine (clear_interim_line s) "🤷‍♀️ වාක්‍යය හඳුනාගත නොහැකිවුණි.".toList
  | RecoEvent.finalR text lang =>
      let t := normalize_sinhala_text cfg.nfc text
      if t = [] then s
      else
        let s1 := clear_interim_line s
        let s2 := printLine s1 ("✅ ".toList ++ langTag show_lang lang ++ t)
        if cfg.enable_ai_responses then
          let r := get_sinhala_response cfg s2 t
          if r.2 = [] then r.1
          else speak_sinhala_text cfg (printLine r.1 ("🤖 ".toList ++ r.2)) r.2 false
        else s2

/-- Dispatch one event to its connected handler. -/
def processEvent (cfg : Config) (show_lang : Bool) (s : PresenterState) :
    RecoEvent → PresenterState
  | RecoEvent.interim t l => on_recognizing cfg show_lang s t l
  | e => on_recognized cfg show_lang s e

/-- Process a sequence of recognition events in arrival order (the SDK
dispatches the connected callbacks sequentially). -/
def runEvents (cfg : Config) (show_lang : Bool) (s : PresenterState)
    (evs : List RecoEvent) : PresenterState :=
  evs.foldl (processEvent cfg show_lang) s

/-- `WELCOME_PROMPT` (line 20). -/
def WELCOME_PROMPT : List Char :=
  "ආයුබෝවන්, සම්පත් බැංකුවට ඔබව සාදරයෙන් පිළිගනිමු. මට උදව් කළ හැක්කේ කෙසේද?".toList

/-- The greeting step of `stream_transcribe` (lines 384-386): normalize the
welcome prompt, print it, and speak it with `force=True`. -/
def greetingStep (cfg : Config) (s : PresenterState) : PresenterState :=
  let g := normalize_sinhala_text cfg.nfc WELCOME_PROMPT
  speak_sinhala_text cfg (printLine s ("📣 ".toList ++ g)) g true

/-- The reply returned by `get_sinhala_response`, as a function of the
configuration alone (the terminal writes it performs do not affect it). -/
def replyText (cfg : Config) (prompt : List Char) : List Char :=
  if !cfg.hasOpenai || !cfg.enable_ai_responses then [] else pyStrip (cfg.replyFn prompt)

/-- Whether one event triggers a synthesis-and-playback reaction: a final
with non-empty normalized text, AI responses enabled, a non-empty reply,
and the TTS path not skipped. -/
def reactsTo (cfg : Config) : RecoEvent → Bool
  | RecoEvent.finalR text _ =>
      let t := normalize_sinhala_text cfg.nfc text
      !decide (t = []) && cfg.enable_ai_responses && !decide (replyText cfg t = []) &&
        !((!cfg.enable_tts && !false) || !cfg.hasSynthesizer
          || decide (pyStrip (replyText cfg t) = []))
  | _ => false

/-- A configuration with AI responses and TTS disabled (the script's
behaviour when the corresponding environment switches are off); `nfc` is the
identity, which NFC is on the ASCII texts used with it. -/
def baseConfig : Config :=
  { nfc := id, enable_ai_responses := false, hasOpenai := false,
    replyFn := fun _ => [], enable_tts := false, hasSynthesizer := false,
    synthOk := true }

/-- A configuration with AI responses and TTS enabled and a fixed non-empty
remote reply. -/
def reactiveConfig : Config :=
  { nfc := id, enable_ai_responses := true, hasOpenai := true,
    replyFn := fun _ => "හරි".toList, enable_tts := true, hasSynthesizer := true,
    synthOk := true }

/-! ## Device auto-selection (`stream_transcribe`, lines 351-382 and 447-448)

```
if selected_device is None:
    for idx in range(pa.get_device_count()):
        info = pa.get_device_info_by_index(idx)
        if "iphone" in info.get("name", "").lower():
            selected_device = idx
            ...
            break
...
if selected_device is not None: ... PushAudioInputStream ...
else: audio_config = speechsdk.audio.AudioConfig(use_default_microphone=True)
```
-/

/-- One PyAudio device record, restricted to the fields the scan reads. -/
structure DeviceInfo where
  name : List Char
  maxInputChannels : Nat
deriving DecidableEq, Repr

/-- Python `s.lower()`, on the ASCII letters these names use. -/
def pyLower (l : List Char) : List Char :=
  l.map Char.toLower

/-- Python's substring test `pat in s`. -/
def substrOf (pat : List Char) : List Char → Bool
  | [] => pat.isEmpty
  | s@(_ :: t) => pat.isPrefixOf s || substrOf pat t

/-- The scan's per-device test: `"iphone" in info.get("name", "").lower()`
with the hard-coded preference generalized to `pat`. -/
def matches_pref (pat : List Char) (d : DeviceInfo) : Bool :=
  substrOf pat (pyLower d.name)

/-- The for-loop of the scan, carrying the running index. -/
def auto_select_device_from (pat : List Char) :
    List DeviceInfo → Nat → Option Nat
  | [], _ => none
  | d :: ds, idx =>
      if matches_pref pat d then some idx else auto_select_device_from pat ds (idx + 1)

/-- The device scan over the whole enumeration (note: it does not restrict
itself to input-capable devices). -/
def auto_select_device (pat : List Char) (devs : List DeviceInfo) : Option Nat :=
  auto_select_device_from pat devs 0

/-- The scan as claim C6 words it — restricted to input-capable devices
(`maxInputChannels > 0`).  This definition follows the claim's sentence, not
the source; it exists only to be compared against `auto_select_device`. -/
def auto_select_device_input_capable (pat : List Char) (devs : List DeviceInfo) :
    Option Nat :=
  (devs.findIdx? fun d => 0 < d.maxInputChannels && matches_pref pat d)

/-- The audio source `stream_transcribe` ends up using. -/
inductive AudioSel where
  | device (idx : Nat)
  | defaultMic
deriving DecidableEq, Repr

/-- The hard-coded name preference of the scan. -/
def IPHONE_PREF : List Char := "iphone".toList

/-- Device resolution: an explicitly requested index wins; otherwise the
scan's first match; otherwise the platform default microphone. -/
def select_input_device (device_id : Option Nat) (devs : List DeviceInfo) :
    AudioSel :=
  match device_id with
  | some i => AudioSel.device i
  | none =>
      match auto_select_device IPHONE_PREF devs with
      | some i => AudioSel.device i
      | none => AudioSel.defaultMic

/-! ## Theorems -/

/-! ## Basic facts about the drain loop -/

/-- Draining a sentinel-free queue pulls every frame, in order, and reports
the queue empty. -/
theorem drain_frames : ∀ (g : List Frame) (acc : List Frame),
    drain (g.map some) acc = (acc ++ g, [], false) := by
  intro g
  induction g with
  | nil => intro acc; simp [drain]
  | cons c g ih =>
      intro acc
      simp [drain, ih, List.append_assoc]

/-- Draining a queue whose first sentinel sits after the frames `g` pulls
exactly `g`, stops at the sentinel, and reports it. -/
theorem drain_sent : ∀ (g : List Frame) (b : List Item) (acc : List Frame),
    drain (g.map some ++ none :: b) acc = (acc ++ g, b, true) := by
  intro g
  induction g with
  | nil => intro b acc; simp [drain]
  | cons c g ih =>
      intro b acc
      simp [drain, ih, List.append_assoc]

/-- Every queue content is either sentinel-free or splits at its first
sentinel. -/
theorem buff_decomp : ∀ q : List Item,
    (∃ g : List Frame, q = g.map some) ∨
    (∃ (g : List Frame) (b : List Item), q = g.map some ++ none :: b) := by
  intro q
  induction q with
  | nil => exact Or.inl ⟨[], rfl⟩
  | cons x q ih =>
      cases x with
      | none => exact Or.inr ⟨[], q, rfl⟩
      | some f =>
          rcases ih with ⟨g, hg⟩ | ⟨g, b, hgb⟩
          · exact Or.inl ⟨f :: g, by simp [hg]⟩
          · exact Or.inr ⟨f :: g, b, by simp [hgb]⟩

/-- A sentinel-free queue region contains no `none`. -/
theorem count_none_map_some (g : List Frame) : (g.map some).count (none : Item) = 0 := by
  induction g with
  | nil => simp
  | cons c g ih => simp [List.count_cons, ih]

/-! ## Claim C2: the per-request batching step -/

/-- Claim C2 (amended): the generator batch step, exactly as the source
behaves, in all four situations: empty queue (the blocking `get` blocks),
sentinel first (terminate, nothing yielded), only frames buffered (one unit
concatenating all of them, in arrival order), and sentinel encountered
mid-drain (terminate at once; the frames already pulled are discarded, not
yielded). -/
theorem generator_batch_step :
    (∀ cl ys k p, consumeFrom ⟨cl, [], ys, k, p⟩ = ⟨cl, [], ys, k, CPos.blocked⟩) ∧
    (∀ cl rest ys k p,
        consumeFrom ⟨cl, none :: rest, ys, k, p⟩ = ⟨cl, rest, ys, k + 1, CPos.done⟩) ∧
    (∀ cl c g ys k p,
        consumeFrom ⟨cl, (c :: g).map some, ys, k, p⟩
          = ⟨cl, [], ys ++ [(c :: g).flatten], k, CPos.idle⟩) ∧
    (∀ cl c g b ys k p,
        consumeFrom ⟨cl, (c :: g).map some ++ none :: b, ys, k, p⟩
          = ⟨cl, b, ys, k + 1, CPos.done⟩) := by
  refine ⟨fun cl ys k p => rfl, fun cl rest ys k p => rfl, ?_, ?_⟩
  · intro cl c g ys k p
    simp [consumeFrom, drain_frames]
  · intro cl c g b ys k p
    simp [consumeFrom, drain_sent]

/-- Concrete run refuting claim C2's mid-drain clause: with a frame followed
by the sentinel in the queue, the source's step discards the pulled frame
(yields nothing), while the claimed behaviour would yield it as a unit. -/
theorem generator_sentinel_mid_drain_cex :
    consumeFrom ⟨false, [some [1], none], [], 0, CPos.idle⟩
        = ⟨false, [], [], 1, CPos.done⟩ ∧
    consumeFromClaimed ⟨false, [some [1], none], [], 0, CPos.idle⟩
        = ⟨false, [], [[1]], 1, CPos.done⟩ ∧
    consumeFrom ⟨false, [some [1], none], [], 0, CPos.idle⟩
        ≠ consumeFromClaimed ⟨false, [some [1], none], [], 0, CPos.idle⟩ := by
  refine ⟨by decide, by decide, by decide⟩

/-! ## Claim C1: byte-exact delivery under consumer pause/resume -/

/-- Reading back the frames of a sentinel-free queue region. -/
theorem reduceOption_map_some (g : List Frame) : (g.map some).reduceOption = g := by
  induction g with
  | nil => simp
  | cons c g ih => simp [ih]

/-- Concatenating the per-round units recovers the concatenation of all
frames. -/
theorem flatMap_units_flatten : ∀ groups : List (List Frame),
    (groups.flatMap fun g => if g = [] then [] else [g.flatten]).flatten
      = groups.flatten.flatten := by
  intro groups
  induction groups with
  | nil => simp
  | cons g gs ihg =>
      by_cases hg : g = [] <;> simp [List.flatMap_cons, hg, ihg]

/-- Running a block of capture-callback pushes only appends the frames to the
queue. -/
theorem runFrom_pushes : ∀ (g : List Frame) (s : SysState),
    runFrom s (g.map MicEvent.push) = { s with buff := s.buff ++ g.map some } := by
  intro g
  induction g with
  | nil => intro s; simp [runFrom]
  | cons c g ih =>
      intro s
      simp only [List.map_cons, runFrom, List.foldl_cons, step]
      have := ih { s with buff := s.buff ++ [some c] }
      simp [runFrom] at this
      simp [this]

/-- On a sentinel-free queue, one batch request pulled by a live (not yet
returned) consumer drains the whole queue into a single unit, leaving the
consumer waiting for more audio. -/
theorem consume_round (g : List Frame) (ys : List Frame) (k : Nat) (p : CPos)
    (hp : p ≠ CPos.done) :
    step ⟨false, g.map some, ys, k, p⟩ MicEvent.consume
      = ⟨false, [], ys ++ (if g = [] then [] else [g.flatten]), k,
          if g = [] then CPos.blocked else CPos.idle⟩ := by
  cases p with
  | done => exact absurd rfl hp
  | idle =>
      cases g with
      | nil => simp [step, consumeFrom]
      | cons c g => simp [step, consumeFrom, drain_frames]
  | blocked =>
      cases g with
      | nil => simp [step]
      | cons c g => simp [step, consumeFrom, drain_frames]

/-- Running one pause/resume round from an open stream with an empty queue:
the group's frames are pushed, then the single batch request yields their
concatenation (or nothing for an empty group). -/
theorem round_run (g : List Frame) (ys : List Frame) (k : Nat) (p : CPos)
    (hp : p ≠ CPos.done) :
    runFrom ⟨false, [], ys, k, p⟩ (g.map MicEvent.push ++ [MicEvent.consume])
      = ⟨false, [], ys ++ (if g = [] then [] else [g.flatten]), k,
          if g = [] then CPos.blocked else CPos.idle⟩ := by
  have h1 : runFrom ⟨false, [], ys, k, p⟩ (g.map MicEvent.push)
      = ⟨false, g.map some, ys, k, p⟩ := by
    simpa using runFrom_pushes g ⟨false, [], ys, k, p⟩
  simp only [runFrom, List.foldl_append] at *
  rw [h1]
  simpa [runFrom] using consume_round g ys k p hp

/-- A full pause/resume schedule yields one unit per non-empty group, in
order, and leaves the queue empty. -/
theorem pause_resume_run : ∀ (groups : List (List Frame)) (ys : List Frame)
    (k : Nat) (p : CPos), p ≠ CPos.done →
    runFrom ⟨false, [], ys, k, p⟩ (pauseResume groups)
      = ⟨false, [],
          ys ++ groups.flatMap (fun g => if g = [] then [] else [g.flatten]), k,
          (runFrom ⟨false, [], ys, k, p⟩ (pauseResume groups)).pos⟩ ∧
    (runFrom ⟨false, [], ys, k, p⟩ (pauseResume groups)).pos ≠ CPos.done := by
  intro groups
  induction groups with
  | nil =>
      intro ys k p hp
      constructor
      · simp [pauseResume, runFrom]
      · simpa [pauseResume, runFrom] using hp
  | cons g gs ih =>
      intro ys k p hp
      have hsplit : pauseResume (g :: gs)
          = (g.map MicEvent.push ++ [MicEvent.consume]) ++ pauseResume gs := by
        simp [pauseResume]
      have hstep := round_run g ys k p hp
      have hpos : (if g = [] then CPos.blocked else CPos.idle) ≠ CPos.done := by
        by_cases hg : g = [] <;> simp [hg]
      have := ih (ys ++ (if g = [] then [] else [g.flatten])) k
        (if g = [] then CPos.blocked else CPos.idle) hpos
      rw [hsplit]
      simp only [runFrom, List.foldl_append] at *
      rw [hstep]
      rcases this with ⟨heq, hne⟩
      refine ⟨?_, ?_⟩
      · rw [heq]
        simp [List.flatMap_cons, List.append_assoc]
      · exact hne

/-- A consumer step on an open stream with a sentinel-free queue keeps the
stream open and the queue sentinel-free, and conserves the total byte mass
(yielded plus still queued). -/
theorem consume_step_nosent (s : SysState) (hclosed : s.closed = false)
    (hns : (none : Item) ∉ s.buff) :
    (step s MicEvent.consume).closed = false ∧
    (none : Item) ∉ (step s MicEvent.consume).buff ∧
    (step s MicEvent.consume).yields.flatten
        ++ ((step s MicEvent.consume).buff.reduceOption).flatten
      = s.yields.flatten ++ (s.buff.reduceOption).flatten := by
  rcases buff_decomp s.buff with ⟨g, hg⟩ | ⟨g, b, hgb⟩
  · cases hp : s.pos with
    | done => refine ⟨?_, ?_, ?_⟩ <;> simp [step, hp, hclosed, hns]
    | idle =>
        cases g with
        | nil => refine ⟨?_, ?_, ?_⟩ <;> simp [step, hp, hclosed, consumeFrom, hg]
        | cons c g =>
            refine ⟨?_, ?_, ?_⟩ <;>
              simp [step, hp, hclosed, consumeFrom, hg, drain_frames,
                reduceOption_map_some]
    | blocked =>
        cases g with
        | nil => refine ⟨?_, ?_, ?_⟩ <;> simp [step, hp, hg, hclosed, hns]
        | cons c g =>
            refine ⟨?_, ?_, ?_⟩ <;>
              simp [step, hp, hg, consumeFrom, drain_frames, hclosed,
                reduceOption_map_some]
  · exact absurd (hgb ▸ by simp) hns

/-- Byte-mass conservation over any close-free schedule. -/
theorem runFrom_conserve : ∀ (evs : List MicEvent) (s : SysState),
    MicEvent.close ∉ evs → s.closed = false → (none : Item) ∉ s.buff →
    (runFrom s evs).yields.flatten ++ ((runFrom s evs).buff.reduceOption).flatten
        = s.yields.flatten ++ (s.buff.reduceOption).flatten
          ++ (pushedFrames evs).flatten := by
  intro evs
  induction evs with
  | nil => intro s _ _ _; simp [runFrom, pushedFrames]
  | cons e evs ih =>
      intro s hcl hclosed hns
      have hcl' : MicEvent.close ∉ evs := fun h => hcl (by simp [h])
      have hrun : runFrom s (e :: evs) = runFrom (step s e) evs := by
        simp [runFrom]
      cases e with
      | push f =>
          rw [hrun, ih _ hcl' (by simp [step, hclosed]) (by simp [step, hns])]
          simp [pushedFrames, step, List.reduceOption_append, List.append_assoc]
      | close => exact absurd (by simp) hcl
      | consume =>
          obtain ⟨h1, h2, h3⟩ := consume_step_nosent s hclosed hns
          rw [hrun, ih _ hcl' h1 h2, h3]
          simp [pushedFrames]

/-- Claim C1.  First conjunct: for any interleaving of pushes and consumer
batch requests with no close, the bytes yielded so far plus the bytes still
queued are exactly the pushed bytes, in push order (nothing lost, duplicated
or reordered).  Second conjunct: under any pause/resume pattern the total
yielded bytes equal the concatenation of all pushed frames, and the queue
ends empty. -/
theorem generator_no_frame_loss :
    (∀ evs, MicEvent.close ∉ evs →
        (runSys evs).yields.flatten ++ ((runSys evs).buff.reduceOption).flatten
          = (pushedFrames evs).flatten) ∧
    (∀ groups : List (List Frame),
        (runSys (pauseResume groups)).yields.flatten = groups.flatten.flatten ∧
        (runSys (pauseResume groups)).buff = []) := by
  constructor
  · intro evs hcl
    have := runFrom_conserve evs initState hcl rfl (by simp [initState])
    simpa [runSys, initState] using this
  · intro groups
    obtain ⟨heq, _⟩ := pause_resume_run groups [] 0 CPos.idle (by simp)
    have hb : (runSys (pauseResume groups)).buff = [] := by
      rw [runSys, initState, heq]
    have hy : (runSys (pauseResume groups)).yields
        = groups.flatMap (fun g => if g = [] then [] else [g.flatten]) := by
      rw [runSys, initState, heq]
      simp
    refine ⟨?_, hb⟩
    rw [hy]
    exact flatMap_units_flatten groups

/-! ## Claim C7: no artificial coalescing for a keeping-up consumer -/

/-- If the consumer issues a batch request after each single push, each
round yields exactly that one frame. -/
theorem single_frame_rounds : ∀ (frames : List Frame) (ys : List Frame) (k : Nat),
    runFrom ⟨false, [], ys, k, CPos.idle⟩
        (frames.flatMap fun f => [MicEvent.push f, MicEvent.consume])
      = ⟨false, [], ys ++ frames, k, CPos.idle⟩ := by
  intro frames
  induction frames with
  | nil => intro ys k; simp [runFrom]
  | cons f fs ih =>
      intro ys k
      have h1 : runFrom ⟨false, [], ys, k, CPos.idle⟩
          ((f :: fs).flatMap fun f => [MicEvent.push f, MicEvent.consume])
          = runFrom ⟨false, [], ys ++ [f], k, CPos.idle⟩
              (fs.flatMap fun f => [MicEvent.push f, MicEvent.consume]) := by
        simp [runFrom, step, consumeFrom, drain]
      rw [h1, ih]
      simp

/-- Claim C7: when frames are enqueued one at a time with the consumer
requesting a batch between pushes, every yielded unit is exactly one frame
— the yield sequence equals the frame sequence. -/
theorem one_frame_per_batch (frames : List Frame) :
    (runSys (frames.flatMap fun f => [MicEvent.push f, MicEvent.consume])).yields
      = frames := by
  have := single_frame_rounds frames [] 0
  simp only [runSys, initState]
  rw [this]
  simp

/-! ## Claim C3: the close path and the sentinel

`__exit__` (both files) runs, in its `finally:` block and without any guard:
`self._closed = True; self._buff.put(None); self._audio_interface.terminate()`.
So every invocation pushes one sentinel — not at most one in total. -/

/-- Concrete run refuting claim C3's "exactly one sentinel" part: two close
invocations leave two sentinels in the queue. -/
theorem close_twice_sentinel_cex :
    (runSys [MicEvent.close, MicEvent.close]).buff.count (none : Item) = 2 ∧
    (2 : Nat) ≠ 1 := by
  refine ⟨by decide, by decide⟩

/-- Per-step sentinel bookkeeping: each event adds one sentinel (observed or
queued) exactly when it is a close. -/
theorem step_sentinel_count (s : SysState) (e : MicEvent) :
    (step s e).sentObs + (step s e).buff.count (none : Item)
      = s.sentObs + s.buff.count (none : Item)
        + (if e = MicEvent.close then 1 else 0) := by
  cases e with
  | push f => simp [step, List.count_append]
  | close => simp [step, List.count_append]; omega
  | consume =>
      simp only [step]
      cases hp : s.pos with
      | done => simp
      | idle =>
          by_cases hc : s.closed
          · simp [hc]
          · simp only [hc, if_false]
            rcases buff_decomp s.buff with ⟨g, hg⟩ | ⟨g, b, hgb⟩
            · cases g with
              | nil => simp [consumeFrom, hg]
              | cons c g =>
                  simp [consumeFrom, hg, drain_frames, count_none_map_some,
                    List.count_append]
            · cases g with
              | nil =>
                  simp [consumeFrom, hgb, List.count_cons]
                  omega
              | cons c g =>
                  simp [consumeFrom, hgb, drain_sent, List.count_append,
                    count_none_map_some, List.count_cons]
                  omega
      | blocked =>
          by_cases hb : s.buff = []
          · simp [hb]
          · simp only [hb, if_false]
            rcases buff_decomp s.buff with ⟨g, hg⟩ | ⟨g, b, hgb⟩
            · cases g with
              | nil => exact absurd hg hb
              | cons c g =>
                  simp [consumeFrom, hg, drain_frames, count_none_map_some,
                    List.count_append]
            · cases g with
              | nil =>
                  simp [consumeFrom, hgb, List.count_cons]
                  omega
              | cons c g =>
                  simp [consumeFrom, hgb, drain_sent, List.count_append,
                    count_none_map_some, List.count_cons]
                  omega


/-- Every step preserves the sentinel-observation invariant. -/
theorem step_sentinel_inv (s : SysState) (e : MicEvent) (h : SentinelInv s) :
    SentinelInv (step s e) := by
  obtain ⟨h1, h2⟩ := h
  cases e with
  | push f => exact ⟨by simpa [step] using h1, by simpa [step] using h2⟩
  | close => exact ⟨by simpa [step] using h1, by simpa [step] using h2⟩
  | consume =>
      simp only [step]
      cases hp : s.pos with
      | done => exact ⟨h1, fun _ => hp⟩
      | idle =>
          by_cases hc : s.closed
          · rw [if_pos hc]
            exact ⟨h1, fun _ => rfl⟩
          · simp only [hc, if_false]
            have hzero : s.sentObs = 0 := by
              rcases Nat.lt_or_ge s.sentObs 1 with h | h
              · omega
              · have := h2 (by omega)
                rw [hp] at this
                exact absurd this (by simp)
            rcases buff_decomp s.buff with ⟨g, hg⟩ | ⟨g, b, hgb⟩
            · cases g with
              | nil => simp [consumeFrom, hg, hzero, SentinelInv]
              | cons c g =>
                  simp [consumeFrom, hg, drain_frames, hzero, SentinelInv]
            · cases g with
              | nil => simp [consumeFrom, hgb, hzero, SentinelInv]
              | cons c g =>
                  simp [consumeFrom, hgb, drain_sent, hzero, SentinelInv]
      | blocked =>
          by_cases hb : s.buff = []
          · simp only [hb, if_true]
            exact ⟨h1, fun h => h2 h⟩
          · simp only [hb, if_false]
            have hzero : s.sentObs = 0 := by
              rcases Nat.lt_or_ge s.sentObs 1 with h | h
              · omega
              · have := h2 (by omega)
                rw [hp] at this
                exact absurd this (by simp)
            rcases buff_decomp s.buff with ⟨g, hg⟩ | ⟨g, b, hgb⟩
            · cases g with
              | nil => exact absurd hg hb
              | cons c g =>
                  simp [consumeFrom, hg, drain_frames, hzero, SentinelInv]
            · cases g with
              | nil => simp [consumeFrom, hgb, hzero, SentinelInv]
              | cons c g =>
                  simp [consumeFrom, hgb, drain_sent, hzero, SentinelInv]


/-- After close, each step preserves the closed invariant, keeps the flag
set, and freezes the yield sequence. -/
theorem step_closed_frozen (s : SysState) (e : MicEvent) (hP : ClosedInv s)
    (hc : s.closed = true) :
    (step s e).closed = true ∧ ClosedInv (step s e) ∧
    (step s e).yields = s.yields := by
  cases e with
  | push f =>
      refine ⟨by simp [step, hc], ?_, by simp [step]⟩
      intro _
      rcases hP hc with h | h
      · exact Or.inl (by simpa [step] using h)
      · exact Or.inr (by simp [step, h])
  | close =>
      refine ⟨by simp [step], ?_, by simp [step]⟩
      intro _
      exact Or.inr (by simp [step])
  | consume =>
      simp only [step]
      cases hp : s.pos with
      | done => exact ⟨hc, fun _ => Or.inl hp, rfl⟩
      | idle =>
          rw [if_pos hc]
          exact ⟨hc, fun _ => Or.inl rfl, rfl⟩
      | blocked =>
          rcases hP hc with h | h
          · rw [hp] at h; exact absurd h (by simp)
          · have hb : s.buff ≠ [] := by
              intro hnil
              rw [hnil] at h
              exact absurd h (by simp)
            simp only [hb, if_false]
            rcases buff_decomp s.buff with ⟨g, hg⟩ | ⟨g, b, hgb⟩
            · rw [hg] at h
              have : (none : Item) ∈ g.map some := h
              simp at this
            · cases g with
              | nil =>
                  refine ⟨by simp [consumeFrom, hgb, hc], ?_,
                    by simp [consumeFrom, hgb]⟩
                  intro _
                  simp [consumeFrom, hgb]
              | cons c g =>
                  refine ⟨by simp [consumeFrom, hgb, drain_sent, hc], ?_,
                    by simp [consumeFrom, hgb, drain_sent]⟩
                  intro _
                  simp [consumeFrom, hgb, drain_sent]

/-- After a close, a whole schedule suffix leaves the yield sequence
untouched, provided the closed invariant holds. -/
theorem runFrom_closed_frozen : ∀ (evs : List MicEvent) (s : SysState),
    ClosedInv s → s.closed = true → (runFrom s evs).yields = s.yields := by
  intro evs
  induction evs with
  | nil => intro s _ _; simp [runFrom]
  | cons e evs ih =>
      intro s hP hc
      obtain ⟨h1, h2, h3⟩ := step_closed_frozen s e hP hc
      have : runFrom s (e :: evs) = runFrom (step s e) evs := by simp [runFrom]
      rw [this, ih _ h2 h1, h3]

/-- Claim C3 (amended).  First conjunct: the number of sentinels the consumer
has observed plus the number still queued equals the number of close
invocations — each close pushes exactly one sentinel, so n closes push n
sentinels.  Second conjunct: the consumer nevertheless never observes more
than one sentinel.  Third conjunct: from the first close on, the yield
sequence never changes — no frame pushed after the first close is ever
observed by the consumer. -/
theorem close_sentinel_accounting :
    (∀ evs, (runSys evs).sentObs + (runSys evs).buff.count (none : Item)
        = evs.count MicEvent.close) ∧
    (∀ evs, (runSys evs).sentObs ≤ 1) ∧
    (∀ evs₁ evs₂, (runSys (evs₁ ++ MicEvent.close :: evs₂)).yields
        = (runSys (evs₁ ++ [MicEvent.close])).yields) := by
  refine ⟨?_, ?_, ?_⟩
  · have main : ∀ (evs : List MicEvent) (s : SysState),
        (runFrom s evs).sentObs + (runFrom s evs).buff.count (none : Item)
          = s.sentObs + s.buff.count (none : Item) + evs.count MicEvent.close := by
      intro evs
      induction evs with
      | nil => intro s; simp [runFrom]
      | cons e evs ih =>
          intro s
          have hrun : runFrom s (e :: evs) = runFrom (step s e) evs := by
            simp [runFrom]
          rw [hrun, ih, step_sentinel_count]
          by_cases he : e = MicEvent.close
          · simp [he, List.count_cons]
            omega
          · simp [he, List.count_cons]
    intro evs
    have := main evs initState
    simpa [runSys, initState] using this
  · have main : ∀ (evs : List MicEvent) (s : SysState), SentinelInv s →
        SentinelInv (runFrom s evs) := by
      intro evs
      induction evs with
      | nil => intro s h; simpa [runFrom] using h
      | cons e evs ih =>
          intro s h
          have hrun : runFrom s (e :: evs) = runFrom (step s e) evs := by
            simp [runFrom]
          rw [hrun]
          exact ih _ (step_sentinel_inv s e h)
    intro evs
    exact (main evs initState ⟨by simp [initState], by simp [initState]⟩).1
  · intro evs₁ evs₂
    have hsplit : runSys (evs₁ ++ MicEvent.close :: evs₂)
        = runFrom (runSys (evs₁ ++ [MicEvent.close])) evs₂ := by
      simp [runSys, runFrom, List.foldl_append]
    rw [hsplit]
    apply runFrom_closed_frozen
    · intro _
      refine Or.inr ?_
      have : runSys (evs₁ ++ [MicEvent.close])
          = step (runSys evs₁) MicEvent.close := by
        simp [runSys, runFrom, List.foldl_append]
      rw [this]
      simp [step]
    · have : runSys (evs₁ ++ [MicEvent.close])
          = step (runSys evs₁) MicEvent.close := by
        simp [runSys, runFrom, List.foldl_append]
      rw [this]
      simp [step]

/-- Witness for `generator_no_frame_loss` at a concrete close-free schedule. -/
theorem generator_no_frame_loss_witness :
    (runSys [MicEvent.push [1, 2], MicEvent.consume, MicEvent.push [3]]).yields.flatten
        ++ ((runSys [MicEvent.push [1, 2], MicEvent.consume,
              MicEvent.push [3]]).buff.reduceOption).flatten
      = (pushedFrames [MicEvent.push [1, 2], MicEvent.consume,
          MicEvent.push [3]]).flatten :=
  generator_no_frame_loss.1 _ (by decide)

/-! ## Presenter frame lemmas -/

/-- Effect of `_clear_interim_line` on the non-terminal fields. -/
theorem clear_interim_fields (s : PresenterState) :
    (clear_interim_line s).lastInterim = [] ∧
    (clear_interim_line s).emitted = s.emitted ∧
    (clear_interim_line s).reactions = s.reactions ∧
    (clear_interim_line s).clears
      = s.clears ++ (if s.lastInterim = [] then []
                     else [get_display_width s.lastInterim]) := by
  by_cases h : s.lastInterim = [] <;> simp [clear_interim_line, h]

/-- Effect of a `print` call on the non-terminal fields. -/
theorem printLine_fields (s : PresenterState) (msg : List Char) :
    (printLine s msg).lastInterim = s.lastInterim ∧
    (printLine s msg).clears = s.clears ∧
    (printLine s msg).reactions = s.reactions ∧
    (printLine s msg).emitted = s.emitted ++ [msg] := by
  simp [printLine]

/-- `get_sinhala_response` only writes to the terminal, and its reply is
`replyText`. -/
theorem get_response_fields (cfg : Config) (s : PresenterState) (prompt : List Char) :
    (get_sinhala_response cfg s prompt).1.lastInterim = s.lastInterim ∧
    (get_sinhala_response cfg s prompt).1.clears = s.clears ∧
    (get_sinhala_response cfg s prompt).1.reactions = s.reactions ∧
    (get_sinhala_response cfg s prompt).1.emitted = s.emitted ∧
    (get_sinhala_response cfg s prompt).2 = replyText cfg prompt := by
  by_cases h : (!cfg.hasOpenai || !cfg.enable_ai_responses : Bool) <;>
    simp [get_sinhala_response, replyText, h]

/-- `speak_sinhala_text` leaves the interim state and the clear log alone and
logs exactly one reaction when the TTS path is not skipped. -/
theorem speak_fields (cfg : Config) (s : PresenterState) (text : List Char)
    (force : Bool) :
    (speak_sinhala_text cfg s text force).lastInterim = s.lastInterim ∧
    (speak_sinhala_text cfg s text force).clears = s.clears ∧
    (speak_sinhala_text cfg s text force).reactions
      = s.reactions
        ++ (if ((!cfg.enable_tts && !force) || !cfg.hasSynthesizer
              || decide (pyStrip text = []) : Bool)
            then [] else [normalize_sinhala_text cfg.nfc text]) := by
  by_cases h : ((!cfg.enable_tts && !force) || !cfg.hasSynthesizer
      || decide (pyStrip text = []) : Bool)
  · simp [speak_sinhala_text, h]
  · by_cases hok : cfg.synthOk <;> simp [speak_sinhala_text, printLine, h, hok]

/-! ## Claim C10: empty interim events are no-ops -/

/-- Claim C10: an interim event whose text is empty or normalizes to empty
leaves the presenter state — terminal, `_last_interim_display`, everything —
completely unchanged. -/
theorem interim_empty_noop (cfg : Config) (show_lang : Bool)
    (s : PresenterState) (t : List Char) (l : Option (List Char))
    (h : normalize_sinhala_text cfg.nfc t = []) :
    on_recognizing cfg show_lang s t l = s := by
  simp [on_recognizing, h]

/-- Witness for `interim_empty_noop`: a lone ZWNJ normalizes to empty, so the
interim event for it is a no-op. -/
theorem interim_empty_noop_witness :
    on_recognizing baseConfig true initPresenter [zwnj] none = initPresenter :=
  interim_empty_noop baseConfig true initPresenter [zwnj] none (by decide)

/-! ## Claim C4: interim overwriting and the Final-time erase -/

/-- Concrete run refuting claim C4's erase-on-interim part: after
`Interim("abcdef")` then `Interim("abc")` the screen line still reads
`"📝 abcdef"` — the trailing `def` of the longer previous interim was never
erased (and no pad-erase was performed at all: the clear log is empty),
while the recorded interim is the shorter `"📝 abc"`. -/
theorem interim_no_erase_cex :
    (runEvents baseConfig true initPresenter
        [RecoEvent.interim "abcdef".toList none,
         RecoEvent.interim "abc".toList none]).term.line = "📝 abcdef".toList ∧
    (runEvents baseConfig true initPresenter
        [RecoEvent.interim "abcdef".toList none,
         RecoEvent.interim "abc".toList none]).lastInterim = "📝 abc".toList ∧
    (runEvents baseConfig true initPresenter
        [RecoEvent.interim "abcdef".toList none,
         RecoEvent.interim "abc".toList none]).clears = [] ∧
    "📝 abc".toList ≠ "📝 abcdef".toList := by
  refine ⟨by decide, by decide, by decide, by decide⟩

/-- Claim C4 (amended).  (1) An interim event never pad-erases: the clear log
is untouched by `on_recognizing`.  (2) The pad-erase happens in
`_clear_interim_line` (reached from Final/NoMatch processing) and uses
`get_display_width` of the most recent interim display — the rendered width,
two columns per Sinhala character, not the code-point count.  (3) For the
sequence Interim("abc"), Interim("abcdef"), Final("abcdef.") the most recent
interim is also the longest, the erase uses its width, and the committed
output is exactly `"✅ abcdef."` with no interim remnants. -/
theorem interim_overwrite_discipline :
    (∀ cfg show_lang s t l,
        (on_recognizing cfg show_lang s t l).clears = s.clears) ∧
    (∀ s : PresenterState, s.lastInterim ≠ [] →
        (clear_interim_line s).clears
            = s.clears ++ [get_display_width s.lastInterim] ∧
        (clear_interim_line s).term
            = writeStr s.term
                ('\r' :: (List.replicate (get_display_width s.lastInterim) ' '
                  ++ ['\r']))) ∧
    ((runEvents baseConfig true initPresenter
        [RecoEvent.interim "abc".toList none,
         RecoEvent.interim "abcdef".toList none,
         RecoEvent.finalR "abcdef.".toList none]).term.committed
          = ["✅ abcdef.".toList] ∧
      (runEvents baseConfig true initPresenter
        [RecoEvent.interim "abc".toList none,
         RecoEvent.interim "abcdef".toList none,
         RecoEvent.finalR "abcdef.".toList none]).clears
          = [get_display_width "📝 abcdef".toList] ∧
      (runEvents baseConfig true initPresenter
        [RecoEvent.interim "abc".toList none,
         RecoEvent.interim "abcdef".toList none,
         RecoEvent.finalR "abcdef.".toList none]).lastInterim = [] ∧
      (runEvents baseConfig true initPresenter
        [RecoEvent.interim "abc".toList none,
         RecoEvent.interim "abcdef".toList none,
         RecoEvent.finalR "abcdef.".toList none]).term.line = []) := by
  refine ⟨?_, ?_, by decide, by decide, by decide, by decide⟩
  · intro cfg show_lang s t l
    by_cases h : normalize_sinhala_text cfg.nfc t = [] <;> simp [on_recognizing, h]
  · intro s h
    simp [clear_interim_line, h]

/-- Witness for `interim_overwrite_discipline`: the pad-erase clause applied
to a state with a pending two-character Sinhala interim, whose display width
is four columns. -/
theorem interim_overwrite_discipline_witness :
    (clear_interim_line { initPresenter with lastInterim := "ආය".toList }).clears
      = [get_display_width "ආය".toList] :=
  (interim_overwrite_discipline.2.1
    { initPresenter with lastInterim := "ආය".toList } (by decide)).1

/-! ## Claim C8: final events commit, empty finals are ignored -/

/-- Claim C8: a final whose text normalizes to empty changes nothing at all;
a final with non-empty normalized text (with the AI reaction disabled, as
the claim's presenter scenario has it) erases any pending interim line
(logging its pad width), emits exactly the committed line, and clears the
interim display state. -/
theorem final_event_commit (cfg : Config) (show_lang : Bool)
    (s : PresenterState) (t : List Char) (l : Option (List Char)) :
    (normalize_sinhala_text cfg.nfc t = [] →
        on_recognized cfg show_lang s (RecoEvent.finalR t l) = s) ∧
    (cfg.enable_ai_responses = false → normalize_sinhala_text cfg.nfc t ≠ [] →
        (on_recognized cfg show_lang s (RecoEvent.finalR t l)).emitted
            = s.emitted ++ ["✅ ".toList ++ langTag show_lang l
                ++ normalize_sinhala_text cfg.nfc t] ∧
        (on_recognized cfg show_lang s (RecoEvent.finalR t l)).lastInterim = [] ∧
        (on_recognized cfg show_lang s (RecoEvent.finalR t l)).clears
            = s.clears ++ (if s.lastInterim = [] then []
                           else [get_display_width s.lastInterim]) ∧
        (on_recognized cfg show_lang s (RecoEvent.finalR t l)).reactions
            = s.reactions) := by
  constructor
  · intro h
    simp [on_recognized, h]
  · intro hai hne
    obtain ⟨c1, c2, c3, c4⟩ := clear_interim_fields s
    simp only [on_recognized, if_neg hne, hai, Bool.false_eq_true, if_false]
    refine ⟨?_, ?_, ?_, ?_⟩ <;> simp [printLine, c1, c2, c3, c4]

/-- Witness for `final_event_commit`: the empty final `Final("")` is a no-op,
and `Final("hi")` from a fresh presenter emits exactly one committed line
and leaves no interim state. -/
theorem final_event_commit_witness :
    on_recognized baseConfig true initPresenter (RecoEvent.finalR [] none)
        = initPresenter ∧
    (on_recognized baseConfig true initPresenter
        (RecoEvent.finalR "hi".toList none)).lastInterim = [] :=
  ⟨(final_event_commit baseConfig true initPresenter [] none).1 (by decide),
   ((final_event_commit baseConfig true initPresenter "hi".toList none).2
     rfl (by decide)).2.1⟩

/-! ## Claim C5: reactions are not gated -/

/-- Concrete run refuting claim C5: the code has no reaction gate at all —
no `acquire()` exists, nothing returns "busy" — and two final events each
trigger their own synthesis-and-playback reaction: two reactions execute,
not exactly one. -/
theorem reaction_gate_cex :
    (runEvents reactiveConfig true initPresenter
        [RecoEvent.finalR ['a'] none, RecoEvent.finalR ['b'] none]).reactions.length
      = 2 ∧
    (2 : Nat) ≠ 1 := by
  refine ⟨by decide, by decide⟩

/-- The AI-reply branch of `on_recognized`, with the state it starts from
abstracted: it adds one reaction exactly when the reply is non-empty and the
TTS path is taken. -/
theorem ai_branch_reactions (cfg : Config) (s2 : PresenterState) (tn : List Char) :
    (if (get_sinhala_response cfg s2 tn).2 = [] then (get_sinhala_response cfg s2 tn).1
     else speak_sinhala_text cfg
        (printLine (get_sinhala_response cfg s2 tn).1
          ("🤖 ".toList ++ (get_sinhala_response cfg s2 tn).2))
        (get_sinhala_response cfg s2 tn).2 false).reactions
      = s2.reactions
        ++ (if (!decide (replyText cfg tn = []) &&
              !((!cfg.enable_tts && !false) || !cfg.hasSynthesizer
                || decide (pyStrip (replyText cfg tn) = [])) : Bool)
            then [normalize_sinhala_text cfg.nfc (replyText cfg tn)] else []) := by
  obtain ⟨_, _, g3, _, g5⟩ := get_response_fields cfg s2 tn
  by_cases hrep : replyText cfg tn = []
  · rw [g5, if_pos hrep, g3]
    simp [hrep]
  · rw [g5, if_neg hrep]
    obtain ⟨_, _, sp3⟩ := speak_fields cfg
      (printLine (get_sinhala_response cfg s2 tn).1 ("🤖 ".toList ++ replyText cfg tn))
      (replyText cfg tn) false
    rw [sp3, (printLine_fields (get_sinhala_response cfg s2 tn).1
      ("🤖 ".toList ++ replyText cfg tn)).2.2.1, g3]
    cases hsk : ((!cfg.enable_tts && !false) || !cfg.hasSynthesizer
        || decide (pyStrip (replyText cfg tn) = []) : Bool) <;> simp [hrep]

/-- One dispatched event adds exactly one reaction when it is a qualifying
final (non-empty normalized text, AI enabled, non-empty reply, TTS path
taken) and none otherwise. -/
theorem processEvent_reactions (cfg : Config) (show_lang : Bool)
    (s : PresenterState) (e : RecoEvent) :
    (processEvent cfg show_lang s e).reactions.length
      = s.reactions.length + (if reactsTo cfg e then 1 else 0) := by
  cases e with
  | interim t l =>
      by_cases ht : normalize_sinhala_text cfg.nfc t = [] <;>
        simp [processEvent, on_recognizing, reactsTo, ht]
  | noMatch =>
      simp [processEvent, on_recognized, printLine, (clear_interim_fields s).2.2.1,
        reactsTo]
  | finalR t l =>
      simp only [processEvent, on_recognized]
      by_cases ht : normalize_sinhala_text cfg.nfc t = []
      · simp [ht, reactsTo]
      · rw [if_neg ht]
        by_cases hai : cfg.enable_ai_responses
        · simp only [hai, if_true]
          rw [ai_branch_reactions,
            (printLine_fields (clear_interim_line s)
              ("✅ ".toList ++ langTag show_lang l
                ++ normalize_sinhala_text cfg.nfc t)).2.2.1,
            (clear_interim_fields s).2.2.1]
          have hreact : reactsTo cfg (RecoEvent.finalR t l)
              = (!decide (replyText cfg (normalize_sinhala_text cfg.nfc t) = []) &&
                  !((!cfg.enable_tts && !false) || !cfg.hasSynthesizer
                    || decide (pyStrip (replyText cfg
                        (normalize_sinhala_text cfg.nfc t)) = [])) : Bool) := by
            simp [reactsTo, ht, hai]
          rw [hreact]
          cases hb : (!decide (replyText cfg (normalize_sinhala_text cfg.nfc t) = []) &&
              !((!cfg.enable_tts && !false) || !cfg.hasSynthesizer
                || decide (pyStrip (replyText cfg
                    (normalize_sinhala_text cfg.nfc t)) = [])) : Bool) <;> simp
        · simp only [hai, Bool.false_eq_true, if_false]
          simp [printLine, (clear_interim_fields s).2.2.1, reactsTo, ht, hai]

/-- Claim C5 (amended): with the handlers dispatched sequentially, every
qualifying final — and nothing else — executes exactly one
synthesis-and-playback reaction; no reaction is ever skipped as "busy"
and no gate state exists to wedge. -/
theorem reaction_per_final (cfg : Config) (show_lang : Bool)
    (s : PresenterState) (evs : List RecoEvent) :
    (runEvents cfg show_lang s evs).reactions.length
      = s.reactions.length + evs.countP (reactsTo cfg) := by
  induction evs generalizing s with
  | nil => simp [runEvents]
  | cons e evs ih =>
      have hrun : runEvents cfg show_lang s (e :: evs)
          = runEvents cfg show_lang (processEvent cfg show_lang s e) evs := by
        simp [runEvents]
      rw [hrun, ih, processEvent_reactions]
      by_cases h : reactsTo cfg e
      · simp [List.countP_cons, h]
        omega
      · simp [List.countP_cons, h]

/-! ## Claim C6: device auto-selection -/

/-- Concrete device list refuting claim C6's input-capable restriction: a
device whose name contains "iphone" but has zero input channels is selected
by the code, while the claim's input-capable scan would find no match and
fall back to the default input. -/
theorem device_scan_cex :
    auto_select_device IPHONE_PREF [⟨"iPhone Speaker".toList, 0⟩] = some 0 ∧
    auto_select_device_input_capable IPHONE_PREF [⟨"iPhone Speaker".toList, 0⟩]
      = none ∧
    select_input_device none [⟨"iPhone Speaker".toList, 0⟩] = AudioSel.device 0 := by
  refine ⟨by decide, by decide, by decide⟩

/-- The scan loop, characterized: a hit is the first matching device from
the running index on; a miss means no device matches. -/
theorem auto_select_device_from_spec : ∀ (pat : List Char) (ds : List DeviceInfo)
    (start : Nat),
    (∀ i, auto_select_device_from pat ds start = some i →
        ∃ j d, i = start + j ∧ ds[j]? = some d ∧ matches_pref pat d = true ∧
          ∀ k d', k < j → ds[k]? = some d' → matches_pref pat d' = false) ∧
    (auto_select_device_from pat ds start = none →
        ∀ d ∈ ds, matches_pref pat d = false) := by
  intro pat ds
  induction ds with
  | nil =>
      intro start
      constructor
      · intro i h
        simp [auto_select_device_from] at h
      · intro _ d hd
        simp at hd
  | cons d ds ih =>
      intro start
      constructor
      · intro i h
        by_cases hm : matches_pref pat d
        · rw [auto_select_device_from, if_pos hm] at h
          obtain rfl : start = i := Option.some.inj h
          refine ⟨0, d, by omega, by simp, hm, ?_⟩
          intro k d' hk _
          omega
        · rw [auto_select_device_from, if_neg hm] at h
          obtain ⟨j, d', hj, hget, hmat, hbefore⟩ := (ih (start + 1)).1 i h
          refine ⟨j + 1, d', by omega, by simpa using hget, hmat, ?_⟩
          intro k dk hk hgk
          cases k with
          | zero =>
              simp at hgk
              subst hgk
              simpa using hm
          | succ k =>
              simp at hgk
              exact hbefore k dk (by omega) hgk
      · intro h d' hd'
        by_cases hm : matches_pref pat d
        · rw [auto_select_device_from, if_pos hm] at h
          exact absurd h (by simp)
        · rw [auto_select_device_from, if_neg hm] at h
          rcases List.mem_cons.1 hd' with rfl | hd'
          · simpa using hm
          · exact (ih (start + 1)).2 h d' hd'

/-- Claim C6 (amended): with no explicit device requested, the code scans
all enumerated devices — input-capable or not — in index order, selects the
first whose name contains "iphone" case-insensitively, and falls back to
the platform default input when none matches; an explicitly requested index
is used as given. -/
theorem device_autoselect :
    (∀ devs i, auto_select_device IPHONE_PREF devs = some i →
        select_input_device none devs = AudioSel.device i ∧
        ∃ d, devs[i]? = some d ∧ matches_pref IPHONE_PREF d = true ∧
          ∀ k d', k < i → devs[k]? = some d' → matches_pref IPHONE_PREF d' = false) ∧
    (∀ devs, auto_select_device IPHONE_PREF devs = none →
        select_input_device none devs = AudioSel.defaultMic ∧
        ∀ d ∈ devs, matches_pref IPHONE_PREF d = false) ∧
    (∀ devs i, select_input_device (some i) devs = AudioSel.device i) := by
  refine ⟨?_, ?_, fun devs i => rfl⟩
  · intro devs i h
    refine ⟨by simp [select_input_device, h], ?_⟩
    obtain ⟨j, d, hj, hget, hmat, hbefore⟩ :=
      (auto_select_device_from_spec IPHONE_PREF devs 0).1 i h
    refine ⟨d, ?_, hmat, ?_⟩
    · rw [hj]
      simpa using hget
    · intro k d' hk hgk
      exact hbefore k d' (by omega) hgk
  · intro devs h
    exact ⟨by simp [select_input_device, h],
      (auto_select_device_from_spec IPHONE_PREF devs 0).2 h⟩

/-- Witness for `device_autoselect`: on a list whose second entry is the only
iPhone-named device the scan selects index 1; on a list with no match the
default microphone is used. -/
theorem device_autoselect_witness :
    select_input_device none
        [⟨"MacBook Pro Microphone".toList, 1⟩, ⟨"My iPhone".toList, 1⟩]
      = AudioSel.device 1 ∧
    select_input_device none [⟨"MacBook Pro Microphone".toList, 1⟩]
      = AudioSel.defaultMic :=
  ⟨(device_autoselect.1 _ 1 (by decide)).1,
   (device_autoselect.2.1 _ (by decide)).1⟩

/-! ## Claim C9: every displayed transcript text passes through
`normalize_sinhala_text` -/

/-- Characters of a split word come from the text being split or the
run accumulated so far. -/
theorem mem_wordsAux : ∀ (l cur : List Char) (w : List Char),
    w ∈ wordsAux l cur → ∀ c ∈ w, c ∈ l ∨ c ∈ cur := by
  intro l
  induction l with
  | nil =>
      intro cur w hw c hc
      by_cases h : cur = []
      · simp [wordsAux, h] at hw
      · simp only [wordsAux, h, if_false, List.mem_singleton] at hw
        subst hw
        exact Or.inr (by simpa using hc)
  | cons a cs ih =>
      intro cur w hw c hc
      by_cases ha : isSpace a
      · simp only [wordsAux, ha, if_true] at hw
        rcases List.mem_append.1 hw with hw | hw
        · by_cases h : cur = []
          · simp [h] at hw
          · simp only [h, if_false, List.mem_singleton] at hw
            subst hw
            exact Or.inr (by simpa using hc)
        · rcases ih [] w hw c hc with h | h
          · exact Or.inl (List.mem_cons_of_mem _ h)
          · simp at h
      · simp only [wordsAux, ha, if_false] at hw
        rcases ih (a :: cur) w hw c hc with h | h
        · exact Or.inl (List.mem_cons_of_mem _ h)
        · rcases List.mem_cons.1 h with rfl | h
          · exact Or.inl (List.mem_cons_self _ _)
          · exact Or.inr h

/-- Characters of a space-joined list are spaces or come from the pieces. -/
theorem mem_joinSp : ∀ (ws : List (List Char)) (c : Char),
    c ∈ joinSp ws → c = ' ' ∨ ∃ w ∈ ws, c ∈ w := by
  intro ws
  induction ws with
  | nil => intro c hc; simp [joinSp] at hc
  | cons w ws ih =>
      intro c hc
      cases ws with
      | nil =>
          simp only [joinSp] at hc
          exact Or.inr ⟨w, by simp, hc⟩
      | cons w' ws' =>
          rw [show joinSp (w :: w' :: ws') = w ++ ' ' :: joinSp (w' :: ws') from rfl]
            at hc
          rcases List.mem_append.1 hc with h | h
          · exact Or.inr ⟨w, by simp, h⟩
          · rcases List.mem_cons.1 h with rfl | h
            · exact Or.inl rfl
            · rcases ih c h with h | ⟨w'', hw1, hw2⟩
              · exact Or.inl h
              · exact Or.inr ⟨w'', List.mem_cons_of_mem _ hw1, hw2⟩

/-- The output of `normalize_sinhala_text` never contains ZWNJ, ZWJ or BOM,
whatever the NFC step does: they are removed after it, and the whitespace
collapse only introduces plain spaces. -/
theorem normalize_chars_clean (nfc : List Char → List Char) (t : List Char)
    (c : Char) (hc : c ∈ normalize_sinhala_text nfc t) :
    c ≠ zwnj ∧ c ≠ zwj ∧ c ≠ bom := by
  by_cases ht : t = []
  · rw [normalize_sinhala_text, if_pos ht, ht] at hc
    simp at hc
  · rw [normalize_sinhala_text, if_neg ht] at hc
    rcases mem_joinSp _ c hc with rfl | ⟨w, hw, hcw⟩
    · refine ⟨by decide, by decide, by decide⟩
    · rcases mem_wordsAux _ [] w hw c hcw with h | h
      · have := (List.mem_filter.1 h).2
        simp only [Bool.not_eq_true', Bool.or_eq_false_iff, decide_eq_false_iff_not]
          at this
        exact ⟨this.1.1, this.1.2, this.2⟩
      · simp at h

/-- Extension of `speak_fields`: the emissions of `speak_sinhala_text` only
append to the log. -/
theorem speak_emitted (cfg : Config) (s : PresenterState) (text : List Char)
    (force : Bool) :
    ∃ extra, (speak_sinhala_text cfg s text force).emitted = s.emitted ++ extra := by
  by_cases h : ((!cfg.enable_tts && !force) || !cfg.hasSynthesizer
      || decide (pyStrip text = []) : Bool)
  · exact ⟨[], by simp [speak_sinhala_text, h]⟩
  · by_cases hok : cfg.synthOk
    · exact ⟨["🎵 කථනය සම්පූර්ණයි".toList],
        by simp [speak_sinhala_text, printLine, h, hok]⟩
    · exact ⟨["❌ TTS දෝෂයක්".toList],
        by simp [speak_sinhala_text, printLine, h, hok]⟩

/-- Claim C9: (1) no text produced by `normalize_sinhala_text` contains
U+200C, U+200D or U+FEFF; (2) the interim display records exactly the
normalized text (with its emoji/language prefix); (3) the committed final
line is exactly the normalized text (with its prefix); (4) the greeting
prints and, if spoken, speaks the normalized welcome prompt; (5) a raw text
containing ZWNJ is never displayed verbatim — normalization changes it. -/
theorem normalize_pipeline :
    (∀ (nfc : List Char → List Char) (t : List Char) (c : Char),
        c ∈ normalize_sinhala_text nfc t → c ≠ zwnj ∧ c ≠ zwj ∧ c ≠ bom) ∧
    (∀ cfg show_lang s t l, normalize_sinhala_text cfg.nfc t ≠ [] →
        (on_recognizing cfg show_lang s t l).lastInterim
          = "📝 ".toList ++ langTag show_lang l ++ normalize_sinhala_text cfg.nfc t) ∧
    (∀ cfg show_lang s t l, cfg.enable_ai_responses = false →
        normalize_sinhala_text cfg.nfc t ≠ [] →
        (on_recognized cfg show_lang s (RecoEvent.finalR t l)).emitted
          = s.emitted ++ ["✅ ".toList ++ langTag show_lang l
              ++ normalize_sinhala_text cfg.nfc t]) ∧
    (∀ cfg s, ∃ extra,
        (greetingStep cfg s).emitted
          = s.emitted
            ++ ("📣 ".toList ++ normalize_sinhala_text cfg.nfc WELCOME_PROMPT) :: extra ∧
        (greetingStep cfg s).reactions
          = s.reactions
            ++ (if ((!cfg.enable_tts && !true) || !cfg.hasSynthesizer
                  || decide (pyStrip (normalize_sinhala_text cfg.nfc WELCOME_PROMPT)
                      = []) : Bool)
                then []
                else [normalize_sinhala_text cfg.nfc
                    (normalize_sinhala_text cfg.nfc WELCOME_PROMPT)])) ∧
    (∀ (nfc : List Char → List Char) (t : List Char), zwnj ∈ t →
        normalize_sinhala_text nfc t ≠ t) := by
  refine ⟨normalize_chars_clean, ?_, ?_, ?_, ?_⟩
  · intro cfg show_lang s t l hne
    simp [on_recognizing, hne]
  · intro cfg show_lang s t l hai hne
    simp only [on_recognized, if_neg hne, hai, Bool.false_eq_true, if_false]
    rw [(printLine_fields (clear_interim_line s) _).2.2.2, (clear_interim_fields s).2.1]
  · intro cfg s
    obtain ⟨extra, hex⟩ := speak_emitted cfg
      (printLine s ("📣 ".toList ++ normalize_sinhala_text cfg.nfc WELCOME_PROMPT))
      (normalize_sinhala_text cfg.nfc WELCOME_PROMPT) true
    refine ⟨extra, ?_, ?_⟩
    · rw [greetingStep, hex, (printLine_fields s _).2.2.2]
      simp
    · rw [greetingStep,
        (speak_fields cfg
          (printLine s ("📣 ".toList ++ normalize_sinhala_text cfg.nfc WELCOME_PROMPT))
          (normalize_sinhala_text cfg.nfc WELCOME_PROMPT) true).2.2,
        (printLine_fields s _).2.2.1]
  · intro nfc t hz heq
    have := (normalize_chars_clean nfc t zwnj (by rw [heq]; exact hz)).1
    exact this rfl

/-- Witness for `normalize_pipeline` at concrete inputs: a plain letter
survives normalization and is none of the banned characters; `Interim("hi")`
records the normalized display; `Final("hi")` commits the normalized line;
and a text containing ZWNJ is changed by normalization. -/
theorem normalize_pipeline_witness :
    ('a' ≠ zwnj ∧ 'a' ≠ zwj ∧ 'a' ≠ bom) ∧
    (on_recognizing baseConfig true initPresenter "hi".toList none).lastInterim
      = "📝 ".toList ++ langTag true none
          ++ normalize_sinhala_text baseConfig.nfc "hi".toList ∧
    (on_recognized baseConfig true initPresenter
        (RecoEvent.finalR "hi".toList none)).emitted
      = initPresenter.emitted ++ ["✅ ".toList ++ langTag true none
          ++ normalize_sinhala_text baseConfig.nfc "hi".toList] ∧
    normalize_sinhala_text id ['a', zwnj] ≠ ['a', zwnj] :=
  ⟨normalize_pipeline.1 id "a".toList 'a' (by decide),
   normalize_pipeline.2.1 baseConfig true initPresenter "hi".toList none (by decide),
   normalize_pipeline.2.2.1 baseConfig true initPresenter "hi".toList none rfl
     (by decide),
   normalize_pipeline.2.2.2.2 id ['a', zwnj] (by decide)⟩

end VoipStt
